import Mathlib

/-!
# Verification of the qprofrs sampling stack profiler core

A shallow embedding, in Lean 4, of the pure core of `src/main.rs`:
register-text parsing, frame-pointer stack walking, memory-dump frame
parsing, recursion-pattern collapsing, address translation, symbol
resolution fallback behaviour, and sample aggregation.  Machine
integers (`u64`) are modelled as `Nat` with explicit `% 2^64` where
wrap-around matters; fallible Rust code (`Result`, `?`) is modelled
with `Option`/sum-like inductives; a Rust panic is modelled as an
explicit `panic` constructor of a result type.  I/O (the QMP channel,
the timer, addr2line) is abstracted as function parameters supplying
the data those collaborators would supply.
-/

namespace Qprofrs

/-! ## Recursion patterns (`RECURSIVE_FUNCTION_PATTERNS`, main.rs:17-21) -/

def translate_with_stack : String := "kernel::dbt::translate::translate_with_stack"

def translate_block : String := "kernel::dbt::translate::FunctionTranslator::translate_block"

def translate_statement : String := "kernel::dbt::translate::FunctionTranslator::translate_statement"

def RECURSIVE_FUNCTION_PATTERNS : List (List String) :=
  [[translate_with_stack, translate_block, translate_statement]]

/-! ## Recursion collapser (`print_stacks` inner loop, main.rs:202-227)

The Rust loop drives a consuming iterator `symbols` and keeps, between
iterations of the inner `while`, the pair `(pattern, pattern_index)`.
We embed the very same automaton with that iterator state made
explicit: the first component of the state is `none` while the outer
`while let` is scanning normally, and `some (pattern, pattern_index)`
while the inner `while` is consuming a recursive run.  Note two
behaviours of the source that the embedding reproduces exactly:
the symbol that ends a run is consumed by `symbols.next()` inside the
inner `while` condition and is never pushed, and the slice emitted for
the run is `pattern[..pattern_index & pattern.len()]` — a bitwise AND
(`&&&`), exactly as written in the source, not a modulus. -/

def collapseAux (patterns : List (List String)) :
    Option (List String × Nat) → List String → List String
  | none, [] => []
  | none, symbol :: rest =>
    match patterns.find? (fun pattern => pattern.head? = some symbol) with
    | some pattern => collapseAux patterns (some (pattern, 1)) rest
    | none => symbol :: collapseAux patterns none rest
  | some (pattern, pattern_index), [] =>
    pattern.take (pattern_index &&& pattern.length)
  | some (pattern, pattern_index), symbol :: rest =>
    if pattern.get? (pattern_index % pattern.length) = some symbol then
      collapseAux patterns (some (pattern, pattern_index + 1)) rest
    else
      pattern.take (pattern_index &&& pattern.length) ++ collapseAux patterns none rest

/-- The collapser as `print_stacks` runs it: over the configured
`RECURSIVE_FUNCTION_PATTERNS`, starting outside any run. -/
def collapseSymbols (symbols : List String) : List String :=
  collapseAux RECURSIVE_FUNCTION_PATTERNS none symbols

/-! ## Stack walker (`run_loop` frame loop, main.rs:123-131)

The source loops while `current_bp` is nonzero: it reads the frame at
`current_bp`, pushes `frame.rip`, and continues from `frame.rbp`.  The
guest memory read `get_stack_frame` is abstracted as `mem`.  The
source loop has no bound of any kind, so the embedding carries fuel;
returning `none` for the stack means the loop was still running after
`fuel` iterations.  The second component counts the frame-read round
trips actually performed. -/

structure StackFrame where
  rbp : Nat
  rip : Nat
  deriving DecidableEq, Repr

def walkStack (mem : Nat → StackFrame) : Nat → Nat → Option (List Nat) × Nat
  | 0, current_bp => if current_bp = 0 then (some [], 0) else (none, 0)
  | fuel + 1, current_bp =>
    if current_bp = 0 then (some [], 0)
    else
      let frame := mem current_bp
      let (rest, reads) := walkStack mem fuel frame.rbp
      (rest.map (fun stack => frame.rip :: stack), reads + 1)

/-! ## Register parser (`run_loop`, main.rs:93 and 114-121)

`Regex::new(r"RBP=([0-9a-f]+)")` searched over the free-form
`info registers` text, then `u64::from_str_radix(&caps[1], 16)`.
The regex engine returns the leftmost position at which the whole
regex matches: the literal `RBP=` followed by at least one *lowercase*
hex digit, the capture being the maximal (greedy) digit run.
`from_str_radix` then fails exactly when the captured value exceeds
`u64::MAX` (the capture is never empty and contains only hex digits).
There is no `RIP=` regex anywhere in the source: the instruction
pointer is never extracted from the register text. -/

def isLowerHexDigit (c : Char) : Bool :=
  ('0' ≤ c && c ≤ '9') || ('a' ≤ c && c ≤ 'f')

def lowerHexVal (c : Char) : Nat :=
  if c ≤ '9' then c.toNat - '0'.toNat else c.toNat - 'a'.toNat + 10

def hexToNat (digits : List Char) : Nat :=
  digits.foldl (fun acc c => acc * 16 + lowerHexVal c) 0

/-- Try to match `RBP=([0-9a-f]+)` anchored at the head of `text`,
returning the capture group. -/
def matchRbpAt : List Char → Option (List Char)
  | 'R' :: 'B' :: 'P' :: '=' :: rest =>
    let run := rest.takeWhile isLowerHexDigit
    if run.isEmpty then none else some run
  | _ => none

/-- Leftmost-match search of the anchored matcher, as the regex engine
performs it: try every position left to right. -/
def rbpCapture : List Char → Option (List Char)
  | [] => none
  | c :: rest =>
    match matchRbpAt (c :: rest) with
    | some run => some run
    | none => rbpCapture rest

/-- Embedding of the RBP extraction in `run_loop` (main.rs:114-121): regex capture, then
`u64::from_str_radix(_, 16)`; `none` models the propagated error
(`Regex failed to find matches`, or integer overflow in the parse). -/
def parse_rbp (text : List Char) : Option Nat :=
  match rbpCapture text with
  | none => none
  | some run => if hexToNat run < 2 ^ 64 then some (hexToNat run) else none

/-! ## Sampling period (`run_loop`, main.rs:96)

`Duration::from_nanos(1_000_000_000 / frequency)`.  Rust `u64`
division panics when the divisor is zero, in every build profile; no
validation of `frequency` happens anywhere before this expression. -/

inductive PeriodOutcome where
  | panicked
  | nanos (n : Nat)
  deriving DecidableEq, Repr

def runLoopPeriod (frequency : Nat) : PeriodOutcome :=
  if frequency = 0 then .panicked else .nanos (1000000000 / frequency)

/-! ## Frame parse (`get_stack_frame`, main.rs:149-160)

The response text of `x /2g <addr>` is a byte string `dump`;
`&dump.as_bytes()[0x14..0x24]` and `[0x27..0x37]` are sliced, each run
through `str::from_utf8` and `u64::from_str_radix(_, 16)` with `?`.
An out-of-range slice panics; `from_utf8` / `from_str_radix` failures
propagate as errors.  The two statements run in order, so a dump long
enough for the first slice but not the second panics only after the
first field parses.  `from_str_radix` accepts an optional leading `+`
and then one or more digits `0-9a-fA-F`; any byte that is not such a
digit — including any non-ASCII byte, which either breaks UTF-8
validity or decodes to a non-digit character — makes the field fail. -/

def byteHexVal (b : Nat) : Option Nat :=
  if 48 ≤ b ∧ b ≤ 57 then some (b - 48)
  else if 97 ≤ b ∧ b ≤ 102 then some (b - 87)
  else if 65 ≤ b ∧ b ≤ 70 then some (b - 55)
  else none

def hexBytesToNat : List Nat → Option Nat
  | [] => none
  | bs => bs.foldl (fun acc b => do pure ((← acc) * 16 + (← byteHexVal b))) (some 0)

/-- Model of `u64::from_str_radix` composed with `str::from_utf8` on a sliced
field: optional leading `+`, then a nonempty hex-digit run whose value
fits in 64 bits. -/
def fromStrRadix16 (bytes : List Nat) : Option Nat :=
  let digits := match bytes with
    | 43 :: rest => rest
    | _ => bytes
  match hexBytesToNat digits with
  | none => none
  | some v => if v < 2 ^ 64 then some v else none

inductive FrameResult where
  | panic
  | error
  | ok (frame : StackFrame)
  deriving DecidableEq, Repr

/-- Embedding of the dump parsing in `get_stack_frame` (main.rs:155-160): the
first quadword field is bound to `rbp` (the saved base pointer, used
as the next frame pointer), the second to `rip` (the return address
that is pushed). -/
def get_stack_frame (dump : List Nat) : FrameResult :=
  if dump.length < 0x24 then .panic
  else
    match fromStrRadix16 ((dump.drop 0x14).take 0x10) with
    | none => .error
    | some rbp =>
      if dump.length < 0x37 then .panic
      else
        match fromStrRadix16 ((dump.drop 0x27).take 0x10) with
        | none => .error
        | some rip => .ok ⟨rbp, rip⟩

/-! ## Address translation (`print_stacks`, main.rs:172)

`debug.find_frames(rip - offset)`: a bare `u64` subtraction, no
guard.  In release builds it wraps modulo `2^64`; in debug builds an
underflow panics.  Both operands are `u64`, i.e. below `2^64`. -/

def translateAddr (rip offset : Nat) : Nat :=
  (rip + (2 ^ 64 - offset)) % 2 ^ 64

/-- The condition under which the subtraction underflows (wraps in
release, panics in debug). -/
def translateUnderflows (rip offset : Nat) : Bool :=
  rip < offset

/-! ## Symbol resolution fallback (`print_stacks`, main.rs:171-197)

addr2line is external; it is abstracted as
`lookup : Nat → Except Unit (List (Option String))`, giving for a
file-relative address either a failure or the frame list, each frame
carrying `some name` when its `function` field is present and
demangles, `none` otherwise.  The source applies `.expect(...)` /
`.unwrap()` to the lookup result and to every `function` field and
demangle result — each of those failures is a process-terminating
panic, modelled by `ResolveOutput.panic`.  Only an `Ok` result with an
empty frame list produces the `"???"` placeholder.  With two or more
frames the list is reversed before joining with `;`. -/

inductive ResolveOutput where
  | panic
  | name (s : String)
  deriving DecidableEq, Repr

def resolveAddr (lookup : Nat → Except Unit (List (Option String)))
    (addr : Nat) : ResolveOutput :=
  match lookup addr with
  | .error _ => .panic
  | .ok frames =>
    match frames with
    | [] => .name "???"
    | [f] =>
      match f with
      | none => .panic
      | some n => .name n
    | _ =>
      match frames.reverse.mapM id with
      | none => .panic
      | some names => .name (String.intercalate ";" names)

/-! ## Sample aggregation (`print_stacks`, main.rs:231: `.counts()`)

`Itertools::counts` folds the signatures into a map
`signature ↦ occurrence count`, inserting at 0 and incrementing.  The
map is modelled as an association list updated in place (iteration
order of the hash map is unspecified; the association order is one
such order and irrelevant to the counted contents). -/

def record (m : List (String × Nat)) (x : String) : List (String × Nat) :=
  match m with
  | [] => [(x, 1)]
  | (k, v) :: rest => if k = x then (k, v + 1) :: rest else (k, v) :: record rest x

def counts (l : List String) : List (String × Nat) :=
  l.foldl record []

def lookupCount (m : List (String × Nat)) (x : String) : Option Nat :=
  match m with
  | [] => none
  | (k, v) :: rest => if k = x then some v else lookupCount rest x

/-! ## Per-stack signature (`print_stacks`, main.rs:166-229)

For one raw stack (innermost-first return addresses), the source runs
`stack.iter().rev().map(resolution)`, collapses, and joins with `;`.
The per-address resolution (a composition of `translateAddr` and
`resolveAddr`) is abstracted here as `f : Nat → String`, covering the
executions in which no resolution panics. -/

def stackSymbols (f : Nat → String) (stack : List Nat) : List String :=
  stack.reverse.map f

def stackSignature (f : Nat → String) (stack : List Nat) : String :=
  String.intercalate ";" (collapseSymbols (stackSymbols f stack))

/-!
## Helper lemmas
-/

/-- A symbol list none of whose members starts any configured pattern
passes through the collapser unchanged. -/
theorem collapseAux_no_match (patterns : List (List String)) :
    ∀ l : List String,
      (∀ s ∈ l, patterns.find? (fun pattern => pattern.head? = some s) = none) →
      collapseAux patterns none l = l := by
  intro l
  induction l with
  | nil => intro _; rfl
  | cons s rest ih =>
    intro h
    have hs := h s (List.mem_cons_self s rest)
    simp only [collapseAux, hs]
    exact congrArg (s :: ·) (ih fun t ht => h t (List.mem_cons_of_mem s ht))

/-!
## C2 — the frame-chain walk has no depth bound
-/

/-- C2: the spec claims a configured maximum-depth bound stops a chain
that never reaches a zero base pointer and surfaces an error.  The
source loop `while current_bp != 0` has no bound of any kind: on a
guest frame whose saved base pointer points back at itself, the walk
is still running after an arbitrary number of frame-read round trips
and never produces a stack.  The failing input is the self-cyclic
frame source below, started at base pointer 1. -/
theorem walk_cyclic_chain_never_completes (fuel : Nat) :
    walkStack (fun bp => ⟨bp, 51966⟩) fuel 1 = (none, fuel) := by
  induction fuel with
  | zero => rfl
  | succ n ih => simp [walkStack, ih]

/-!
## C4 — the period computation divides by the unvalidated frequency
-/

/-- C4: the spec claims frequency is validated to be nonzero before
the sampling loop so that `1_000_000_000 / frequency` never divides by
zero.  No such validation exists in the source: at frequency 0 the
very first expression of `run_loop` performs a `u64` division by zero,
which is a panic, not a reported configuration error. -/
theorem period_computation_div_by_zero :
    runLoopPeriod 0 = PeriodOutcome.panicked := rfl

/-!
## C1 — recursion collapsing at repeated patterns
-/

/-- C1: evaluated at the failing input — the configured pattern P
repeated twice followed by the non-matching name "main" — the
collapser emits only the first two names of P, dropping the third name
of P and "main" itself, instead of one full copy of P followed by
"main": `pattern_index` reaches 6 and the emitted slice is
`pattern[..6 & 3] = pattern[..2]`.  The second conjunct shows the
defect present even at one period: the first non-matching name
("main") is consumed by the run-terminating `symbols.next()` and
lost, so scanning resumes at "caller" instead. -/
theorem collapse_recursion_bug :
    collapseSymbols
        [translate_with_stack, translate_block, translate_statement,
          translate_with_stack, translate_block, translate_statement, "main"] =
      [translate_with_stack, translate_block] ∧
    collapseSymbols
        [translate_with_stack, translate_block, translate_statement, "main", "caller"] =
      [translate_with_stack, translate_block, translate_statement, "caller"] := by
  decide

/-!
## C5 — resolver failure versus empty resolver result
-/

/-- C5 counterexample: a failing symbol lookup does not produce the
"???" placeholder — `find_frames(..).expect(..)` panics, terminating
the process. -/
theorem resolver_failure_panics :
    resolveAddr (fun _ => Except.error ()) 4096 = ResolveOutput.panic ∧
    ResolveOutput.panic ≠ ResolveOutput.name "???" := by
  decide

/-- C5 amended: only an empty frame list yields the "???" placeholder
and lets processing continue; a lookup failure is a panic that
terminates the process. -/
theorem resolver_empty_gives_placeholder
    (lookup : Nat → Except Unit (List (Option String))) (addr : Nat) :
    (lookup addr = Except.ok [] → resolveAddr lookup addr = ResolveOutput.name "???") ∧
    (∀ e, lookup addr = Except.error e → resolveAddr lookup addr = ResolveOutput.panic) := by
  constructor
  · intro h
    simp [resolveAddr, h]
  · intro e h
    simp [resolveAddr, h]

/-- C5 witness for `resolver_empty_gives_placeholder` at a concrete
lookup returning an empty frame list. -/
theorem resolver_empty_gives_placeholder_witness :
    resolveAddr (fun _ => Except.ok []) 8192 = ResolveOutput.name "???" :=
  (resolver_empty_gives_placeholder (fun _ => Except.ok []) 8192).1 rfl

/-!
## C3 — register parsing extracts RBP only
-/

/-- C3 counterexample: the claim requires parsing to fail with a parse
error when the RIP marker is missing, and to extract both registers.
The text below contains an RBP field and no RIP marker at all, yet the
source extracts the base pointer and succeeds: no RIP regex exists in
the program. -/
theorem parse_rbp_ignores_missing_rip :
    parse_rbp "xx RBP=1f yy".toList = some 31 := by decide

/-- List elements before any occurrence of a run all satisfying `p`
followed by a non-`p` head are exactly the run. -/
theorem takeWhile_all_append (p : Char → Bool) (l1 l2 : List Char)
    (h1 : ∀ c ∈ l1, p c = true)
    (h2 : ∀ c ∈ l2.take 1, p c = false) :
    (l1 ++ l2).takeWhile p = l1 := by
  induction l1 with
  | nil =>
    cases l2 with
    | nil => rfl
    | cons c t =>
      have hc := h2 c (by simp)
      simp [List.takeWhile_cons, hc]
  | cons a t ih =>
    have ha := h1 a (List.mem_cons_self a t)
    simp only [List.cons_append, List.takeWhile_cons, ha, if_true]
    exact congrArg (a :: ·) (ih fun c hc => h1 c (List.mem_cons_of_mem a hc))

/-- A position whose first character is not the letter R cannot start
a match of the RBP regex. -/
theorem matchRbpAt_ne (c : Char) (l : List Char) (hc : c ≠ 'R') :
    matchRbpAt (c :: l) = none := by
  rw [matchRbpAt.eq_def]
  split
  · rename_i rest h
    injection h with h1 _
    exact absurd h1 hc
  · rfl

/-- Unfolding equation for one scanning step of the leftmost-match
search. -/
theorem rbpCapture_cons (c : Char) (rest : List Char) :
    rbpCapture (c :: rest) =
      match matchRbpAt (c :: rest) with
      | some run => some run
      | none => rbpCapture rest := rfl

/-- Leftmost-match search skips a prefix containing no letter R. -/
theorem rbpCapture_skip (pre tail : List Char) (hpre : ∀ c ∈ pre, c ≠ 'R') :
    rbpCapture (pre ++ tail) = rbpCapture tail := by
  induction pre with
  | nil => rfl
  | cons c rest ih =>
    have h1 : matchRbpAt (c :: (rest ++ tail)) = none :=
      matchRbpAt_ne c _ (hpre c (List.mem_cons_self c rest))
    rw [List.cons_append, rbpCapture_cons, h1]
    exact ih fun d hd => hpre d (List.mem_cons_of_mem c hd)

/-- At the marker itself, the anchored matcher captures exactly the
greedy hex run. -/
theorem matchRbpAt_marker (hex post : List Char) (hne : hex ≠ [])
    (hhex : ∀ c ∈ hex, isLowerHexDigit c = true)
    (hpost : ∀ c ∈ post.take 1, isLowerHexDigit c = false) :
    matchRbpAt ('R' :: 'B' :: 'P' :: '=' :: (hex ++ post)) = some hex := by
  have htw : (hex ++ post).takeWhile isLowerHexDigit = hex :=
    takeWhile_all_append _ _ _ hhex hpost
  have hemp : hex.isEmpty = false := by
    cases hex with
    | nil => exact absurd rfl hne
    | cons a t => rfl
  simp [matchRbpAt, htw, hemp]

/-- C3 amended: register parsing extracts only the base pointer.  For
any register text consisting of a prefix without the letter R, the
literal marker RBP=, a nonempty lowercase-hex run whose value fits in
64 bits, and a remainder not starting with a hex digit, the source
extracts exactly that value — whether or not any RIP marker is present
anywhere; the instruction pointer is never parsed from register
text and its absence causes no error. -/
theorem parse_rbp_extracts_first_match (pre hex post : List Char)
    (hpre : ∀ c ∈ pre, c ≠ 'R')
    (hne : hex ≠ [])
    (hhex : ∀ c ∈ hex, isLowerHexDigit c = true)
    (hpost : ∀ c ∈ post.take 1, isLowerHexDigit c = false)
    (hfit : hexToNat hex < 2 ^ 64) :
    parse_rbp (pre ++ 'R' :: 'B' :: 'P' :: '=' :: (hex ++ post)) = some (hexToNat hex) := by
  unfold parse_rbp
  rw [rbpCapture_skip pre _ hpre, rbpCapture_cons, matchRbpAt_marker hex post hne hhex hpost]
  exact if_pos hfit

/-- C3 witness for `parse_rbp_extracts_first_match` on a concrete
register text. -/
theorem parse_rbp_extracts_first_match_witness :
    parse_rbp ("xx ".toList ++ 'R' :: 'B' :: 'P' :: '=' :: ("1f".toList ++ " yy".toList)) =
      some (hexToNat "1f".toList) :=
  parse_rbp_extracts_first_match "xx ".toList "1f".toList " yy".toList
    (by decide) (by decide) (by decide) (by decide) (by decide)

/-!
## C8 — memory-dump frame parsing
-/

/-- C8 counterexample: a dump too short for the fixed-offset slices
makes `get_stack_frame` panic (slice index out of range), not return
an error result as the claim states. -/
theorem short_dump_panics :
    get_stack_frame [] = FrameResult.panic ∧ FrameResult.panic ≠ FrameResult.error := by
  decide

/-- C8 amended: a dump shorter than the sliced ranges panics instead
of returning an error; a long-enough dump with a non-hexadecimal field
yields an error result; and on success the first quadword field is the
saved base pointer and the second is the return address. -/
theorem get_stack_frame_behaviour :
    (∀ dump : List Nat, dump.length < 0x24 → get_stack_frame dump = FrameResult.panic) ∧
    (∀ dump : List Nat, 0x37 ≤ dump.length →
      fromStrRadix16 ((dump.drop 0x14).take 0x10) = none →
      get_stack_frame dump = FrameResult.error) ∧
    (∀ dump : List Nat, ∀ rbp : Nat, 0x37 ≤ dump.length →
      fromStrRadix16 ((dump.drop 0x14).take 0x10) = some rbp →
      fromStrRadix16 ((dump.drop 0x27).take 0x10) = none →
      get_stack_frame dump = FrameResult.error) ∧
    (∀ dump : List Nat, ∀ rbp rip : Nat, 0x37 ≤ dump.length →
      fromStrRadix16 ((dump.drop 0x14).take 0x10) = some rbp →
      fromStrRadix16 ((dump.drop 0x27).take 0x10) = some rip →
      get_stack_frame dump = FrameResult.ok ⟨rbp, rip⟩) := by
  refine ⟨?_, ?_, ?_, ?_⟩
  · intro dump h
    simp [get_stack_frame, h]
  · intro dump h hf1
    have h24 : ¬ dump.length < 0x24 := by omega
    simp [get_stack_frame, h24, hf1]
  · intro dump rbp h hf1 hf2
    have h24 : ¬ dump.length < 0x24 := by omega
    have h37 : ¬ dump.length < 0x37 := by omega
    simp [get_stack_frame, h24, h37, hf1, hf2]
  · intro dump rbp rip h hf1 hf2
    have h24 : ¬ dump.length < 0x24 := by omega
    have h37 : ¬ dump.length < 0x37 := by omega
    simp [get_stack_frame, h24, h37, hf1, hf2]

/-- C8 witness for `get_stack_frame_behaviour` on a concrete dump of
55 ASCII zero bytes: both fields parse as zero. -/
theorem get_stack_frame_behaviour_witness :
    get_stack_frame (List.replicate 0x37 48) = FrameResult.ok ⟨0, 0⟩ :=
  get_stack_frame_behaviour.2.2.2 (List.replicate 0x37 48) 0 0
    (by decide) (by decide) (by decide)

/-!
## C9 — unguarded load-offset subtraction
-/

/-- C9: symbol resolution subtracts the load offset from each return
address with a bare `u64` subtraction.  Under the precondition that
the address is at least the offset the result is the true difference;
below the offset the value wraps modulo `2^64` (and the underflow
condition that panics a debug build holds), rather than any error
being reported. -/
theorem translate_addr_unguarded_sub (rip offset : Nat)
    (h1 : rip < 2 ^ 64) (h2 : offset < 2 ^ 64) :
    (offset ≤ rip → translateAddr rip offset = rip - offset) ∧
    (rip < offset →
      translateAddr rip offset = 2 ^ 64 - (offset - rip) ∧
      translateUnderflows rip offset = true) := by
  have hp : (2 : Nat) ^ 64 = 18446744073709551616 := by norm_num
  constructor
  · intro h
    unfold translateAddr
    rw [hp] at h1 h2 ⊢
    omega
  · intro h
    refine ⟨?_, ?_⟩
    · unfold translateAddr
      rw [hp] at h1 h2 ⊢
      omega
    · simp [translateUnderflows, h]

/-- C9 witness for `translate_addr_unguarded_sub` at a return address
below the load offset. -/
theorem translate_addr_unguarded_sub_witness :
    (7 ≤ 5 → translateAddr 5 7 = 5 - 7) ∧
    (5 < 7 → translateAddr 5 7 = 2 ^ 64 - (7 - 5) ∧ translateUnderflows 5 7 = true) :=
  translate_addr_unguarded_sub 5 7 (by norm_num) (by norm_num)

/-!
## C7 — sample aggregation counts
-/

/-- Updating the table at `x` takes its count to one more than before
(an absent key counting as zero). -/
theorem lookupCount_record_self (m : List (String × Nat)) (x : String) :
    lookupCount (record m x) x = some ((lookupCount m x).getD 0 + 1) := by
  induction m with
  | nil => simp [record, lookupCount]
  | cons kv rest ih =>
    obtain ⟨k, v⟩ := kv
    by_cases h : k = x
    · subst h
      simp [record, lookupCount]
    · simp [record, lookupCount, h, ih]

/-- Updating the table at `x` leaves every other key unchanged. -/
theorem lookupCount_record_other (m : List (String × Nat)) (x y : String) (h : y ≠ x) :
    lookupCount (record m x) y = lookupCount m y := by
  induction m with
  | nil => simp [record, lookupCount, Ne.symm h]
  | cons kv rest ih =>
    obtain ⟨k, v⟩ := kv
    by_cases hk : k = x
    · subst hk
      simp [record, lookupCount, Ne.symm h]
    · by_cases hy : k = y
      · subst hy
        simp [record, lookupCount, hk, ih]
      · simp [record, lookupCount, hk, hy, ih]

/-- Absent keys are exactly those outside the key list. -/
theorem lookupCount_eq_none (m : List (String × Nat)) (x : String) :
    lookupCount m x = none ↔ x ∉ m.map Prod.fst := by
  induction m with
  | nil => simp [lookupCount]
  | cons kv rest ih =>
    obtain ⟨k, v⟩ := kv
    by_cases h : k = x
    · subst h
      simp [lookupCount]
    · simp [lookupCount, h, ih, Ne.symm h]

/-- Key list of an updated table: unchanged for a present key, the new
key appended for an absent one. -/
theorem keys_record (m : List (String × Nat)) (x : String) :
    (record m x).map Prod.fst =
      if lookupCount m x = none then m.map Prod.fst ++ [x] else m.map Prod.fst := by
  induction m with
  | nil => simp [record, lookupCount]
  | cons kv rest ih =>
    obtain ⟨k, v⟩ := kv
    by_cases h : k = x
    · subst h
      simp [record, lookupCount]
    · by_cases hn : lookupCount rest x = none
      · simp [record, lookupCount, h, ih, hn]
      · simp [record, lookupCount, h, ih, hn]

/-- Updating preserves key uniqueness. -/
theorem nodup_keys_record (m : List (String × Nat)) (x : String)
    (h : (m.map Prod.fst).Nodup) : ((record m x).map Prod.fst).Nodup := by
  rw [keys_record]
  by_cases hn : lookupCount m x = none
  · rw [if_pos hn]
    have hx : x ∉ m.map Prod.fst := (lookupCount_eq_none m x).1 hn
    rw [List.nodup_append]
    refine ⟨h, List.nodup_singleton x, ?_⟩
    intro a ha hmem
    rw [List.mem_singleton] at hmem
    subst hmem
    exact hx ha
  · rw [if_neg hn]
    exact h

/-- Updating adds exactly one to the total of all counts. -/
theorem sum_record (m : List (String × Nat)) (x : String) :
    ((record m x).map Prod.snd).sum = (m.map Prod.snd).sum + 1 := by
  induction m with
  | nil => simp [record]
  | cons kv rest ih =>
    obtain ⟨k, v⟩ := kv
    by_cases h : k = x
    · subst h
      simp [record]
      omega
    · simp [record, h, ih]
      omega

/-- Folding `record` over a list of signatures adds each occurrence of
`x` to the count stored for `x`. -/
theorem counts_fold_lookup (x : String) :
    ∀ (l : List String) (m : List (String × Nat)),
      lookupCount (l.foldl record m) x =
        if l.count x = 0 then lookupCount m x
        else some ((lookupCount m x).getD 0 + l.count x) := by
  intro l
  induction l with
  | nil => intro m; simp
  | cons a t ih =>
    intro m
    rw [List.foldl_cons, ih]
    by_cases hax : a = x
    · subst hax
      have hc : (a :: t).count a = t.count a + 1 := by simp [List.count_cons]
      rw [hc, lookupCount_record_self]
      by_cases h0 : t.count a = 0
      · simp [h0]
      · cases hm : lookupCount m a with
        | none =>
          simp [h0, hm]
          omega
        | some v =>
          simp [h0, hm]
          omega
    · have hyx : x ≠ a := fun hh => hax hh.symm
      rw [lookupCount_record_other m a x hyx]
      have hc : (a :: t).count x = t.count x := by
        simp [List.count_cons, hax]
      rw [hc]

/-- Folding `record` preserves key uniqueness. -/
theorem counts_fold_nodup :
    ∀ (l : List String) (m : List (String × Nat)),
      (m.map Prod.fst).Nodup → ((l.foldl record m).map Prod.fst).Nodup := by
  intro l
  induction l with
  | nil => intro m h; exact h
  | cons a t ih =>
    intro m h
    exact ih (record m a) (nodup_keys_record m a h)

/-- Folding `record` adds the number of recordings to the total. -/
theorem counts_fold_sum :
    ∀ (l : List String) (m : List (String × Nat)),
      ((l.foldl record m).map Prod.snd).sum = (m.map Prod.snd).sum + l.length := by
  intro l
  induction l with
  | nil => intro m; simp
  | cons a t ih =>
    intro m
    rw [List.foldl_cons, ih, sum_record]
    simp only [List.length_cons]
    omega

/-- C7: in the emitted sample table, a signature recorded k times has
stored count exactly k (its occurrence count in the recorded list),
the keys are unique, and the stored counts sum to the total number of
recorded samples. -/
theorem counts_exact (l : List String) :
    (∀ x ∈ l, lookupCount (counts l) x = some (l.count x)) ∧
    ((counts l).map Prod.fst).Nodup ∧
    ((counts l).map Prod.snd).sum = l.length := by
  refine ⟨?_, ?_, ?_⟩
  · intro x hx
    have hc : l.count x ≠ 0 := Nat.pos_iff_ne_zero.1 (List.count_pos_iff.2 hx)
    have h := counts_fold_lookup x l []
    rw [counts, h, if_neg hc]
    simp [lookupCount]
  · exact counts_fold_nodup l [] (by simp)
  · have h := counts_fold_sum l []
    rw [counts, h]
    simp

/-- C7 witness for `counts_exact` on a concrete recording list. -/
theorem counts_exact_witness :
    lookupCount (counts ["a", "b", "a"]) "a" = some 2 := by
  have h := (counts_exact ["a", "b", "a"]).1 "a" (by decide)
  simpa using h

/-!
## C6 — walking a well-formed synthetic chain
-/

/-- A zero base pointer stops the walk immediately, whatever the fuel:
the zero-terminator frame is never read. -/
theorem walkStack_zero (mem : Nat → StackFrame) (fuel : Nat) :
    walkStack mem fuel 0 = (some [], 0) := by
  cases fuel <;> simp [walkStack]

/-- One iteration of the walk loop at a nonzero base pointer. -/
theorem walkStack_succ (mem : Nat → StackFrame) (fuel current_bp : Nat)
    (h : current_bp ≠ 0) :
    walkStack mem (fuel + 1) current_bp =
      ((walkStack mem fuel (mem current_bp).rbp).1.map ((mem current_bp).rip :: ·),
        (walkStack mem fuel (mem current_bp).rbp).2 + 1) := by
  simp only [walkStack, if_neg h]

/-- Walking from the middle of a chain yields the remaining return
addresses and one read per remaining frame. -/
theorem walkStack_chain_aux (mem : Nat → StackFrame) (bps rips : Nat → Nat) (N : Nat)
    (hnz : ∀ i, i < N → bps i ≠ 0)
    (hmem : ∀ i, i < N →
      mem (bps i) = ⟨(if i + 1 = N then 0 else bps (i + 1)), rips i⟩) :
    ∀ k, 1 ≤ k → ∀ i, i + k = N → ∀ fuel, k ≤ fuel →
      walkStack mem fuel (bps i) =
        (some ((List.range k).map (fun j => rips (i + j))), k) := by
  intro k
  induction k with
  | zero => intro h; exact absurd h (by omega)
  | succ k ih =>
    intro _ i hi fuel hfuel
    have hiN : i < N := by omega
    have hbp : bps i ≠ 0 := hnz i hiN
    obtain ⟨f, rfl⟩ : ∃ f, fuel = f + 1 := ⟨fuel - 1, by omega⟩
    rw [walkStack_succ mem f (bps i) hbp, hmem i hiN]
    by_cases hk : k = 0
    · subst hk
      have hN : i + 1 = N := by omega
      simp only [if_pos hN]
      rw [walkStack_zero]
      simp [List.range_succ]
    · have hN : i + 1 ≠ N := by omega
      simp only [if_neg hN]
      rw [ih (by omega) (i + 1) (by omega) f (by omega)]
      have hr : (List.range (k + 1)).map (fun j => rips (i + j)) =
          rips i :: (List.range k).map (fun j => rips (i + 1 + j)) := by
        rw [List.range_succ_eq_map, List.map_cons, List.map_map]
        rw [Nat.add_zero]
        exact congrArg (rips i :: ·)
          (List.map_congr_left fun a _ => congrArg rips (by omega))
      rw [hr]
      simp

/-- C6: for every synthetic frame chain of length N (frame i living at
nonzero base pointer `bps i`, holding return address `rips i` and, for
the last frame, a zero saved base pointer), the walk starting at the
innermost frame returns exactly the N return addresses innermost-first
and performs exactly N frame reads; the zero terminator itself is
never read and never appears in the stack. -/
theorem walk_synthetic_chain (mem : Nat → StackFrame) (bps rips : Nat → Nat) (N : Nat)
    (hN : 1 ≤ N)
    (hnz : ∀ i, i < N → bps i ≠ 0)
    (hmem : ∀ i, i < N →
      mem (bps i) = ⟨(if i + 1 = N then 0 else bps (i + 1)), rips i⟩)
    (fuel : Nat) (hfuel : N ≤ fuel) :
    walkStack mem fuel (bps 0) = (some ((List.range N).map rips), N) := by
  have h := walkStack_chain_aux mem bps rips N hnz hmem N hN 0 (by omega) fuel hfuel
  simpa using h

/-- C6 witness for `walk_synthetic_chain` on a concrete two-frame
chain. -/
theorem walk_synthetic_chain_witness :
    walkStack
        (fun bp => if bp = 1 then ⟨2, 100⟩ else if bp = 2 then ⟨0, 101⟩ else ⟨0, 0⟩)
        2 1 =
      (some [100, 101], 2) := by
  have h := walk_synthetic_chain
    (fun bp => if bp = 1 then ⟨2, 100⟩ else if bp = 2 then ⟨0, 101⟩ else ⟨0, 0⟩)
    (fun i => i + 1) (fun i => 100 + i) 2 (by omega)
    (fun i hi => Nat.succ_ne_zero i)
    (fun i hi => by interval_cases i <;> rfl)
    2 (by omega)
  simpa using h

/-!
## C10 — output order of collapsed names
-/

/-- C10 counterexample: the first/last-name consequence of the claim
fails on a pattern-matching stack.  With a resolver assigning the
pattern names cyclically, the six-frame stack below resolves
(outermost-first) to two full periods of the configured pattern; the
collapser then emits only the first two pattern names, so the last
emitted name is not the name of the innermost frame. -/
theorem collapsed_last_name_not_innermost :
    collapseSymbols (stackSymbols
        (fun n => [translate_statement, translate_block, translate_with_stack,
          translate_statement, translate_block, translate_with_stack].getD n "x")
        [0, 1, 2, 3, 4, 5]) = [translate_with_stack, translate_block] ∧
    (fun n => [translate_statement, translate_block, translate_with_stack,
          translate_statement, translate_block, translate_with_stack].getD n "x") 0 =
      translate_statement ∧
    translate_block ≠ translate_statement := by decide

/-- C10 amended: the raw stack, innermost-first, is reversed before
resolution and folding; for every stack whose resolved names start no
configured recursion pattern, the emitted name list is the reversed
resolved stack, whose first name belongs to the outermost frame and
whose last name belongs to the innermost frame. -/
theorem signature_outermost_first (f : Nat → String) (stack : List Nat)
    (h : ∀ a ∈ stack, ∀ p ∈ RECURSIVE_FUNCTION_PATTERNS, p.head? ≠ some (f a)) :
    collapseSymbols (stackSymbols f stack) = (stack.map f).reverse ∧
    (collapseSymbols (stackSymbols f stack)).head? = (stack.getLast?).map f ∧
    (collapseSymbols (stackSymbols f stack)).getLast? = (stack.head?).map f := by
  have hid : collapseSymbols (stackSymbols f stack) = stackSymbols f stack := by
    apply collapseAux_no_match
    intro s hs
    rw [List.find?_eq_none]
    intro p hp
    simp only [stackSymbols, List.mem_map, List.mem_reverse] at hs
    obtain ⟨a, ha, rfl⟩ := hs
    simpa using h a ha p hp
  have hmap : stackSymbols f stack = (stack.map f).reverse := List.map_reverse f stack
  refine ⟨hid.trans hmap, ?_, ?_⟩
  · rw [hid.trans hmap, List.head?_reverse, List.getLast?_map]
  · rw [hid.trans hmap, List.getLast?_reverse, List.head?_map]

/-- C10 witness for `signature_outermost_first` on a concrete stack of
two frames with non-recursive names. -/
theorem signature_outermost_first_witness :
    collapseSymbols (stackSymbols
        (fun n => if n = 10 then "ten" else "twenty") [10, 20]) = ["twenty", "ten"] ∧
    (collapseSymbols (stackSymbols
        (fun n => if n = 10 then "ten" else "twenty") [10, 20])).head? = some "twenty" ∧
    (collapseSymbols (stackSymbols
        (fun n => if n = 10 then "ten" else "twenty") [10, 20])).getLast? = some "ten" := by
  have h := signature_outermost_first
    (fun n => if n = 10 then "ten" else "twenty") [10, 20] (by decide)
  simpa using h

end Qprofrs
